import Mathlib

/-!
Shallow embedding of the `stringswitch` repository (FNV-1a string hashing
for switch-style dispatch): the width trait tables, the generic hash engine
`fnv1a<Bits>::hash_container`, its entry wrappers, the lowercase adapter of
namespace `strhash_lower`, and the benchmark ratio computation of `main.cpp`.
Machine integers are modelled as `Nat` with explicit reduction modulo `2 ^ bits`.
-/

/-- `Pack128(high, low)` from `switch_fnv1a.h`: builds a 128-bit value from two
64-bit halves, `((__uint128_t)high << 64) + low`. -/
def Pack128 (high low : Nat) : Nat :=
  ((high % 2 ^ 64) * 2 ^ 64 + low % 2 ^ 64) % 2 ^ 128

/-- `fnv1a_traits<Bits>::Supported`: only widths 32, 64 and 128 are supported. -/
def fnv1aSupported (bits : Nat) : Bool :=
  bits == 32 || bits == 64 || bits == 128

/-- `fnv1a_traits<Bits>::Prime` for the three supported widths
(`0x1000193`, `0x100000001b3`, `Pack128(0x1000000, 0x13b)`); 0 elsewhere
(unsupported widths are a compile-time error in the source). -/
def fnv1aPrime : Nat → Nat
  | 32 => 0x1000193
  | 64 => 0x100000001b3
  | 128 => Pack128 0x1000000 0x000000000000013b
  | _ => 0

/-- `fnv1a_traits<Bits>::Offset` for the three supported widths; 0 elsewhere. -/
def fnv1aOffset : Nat → Nat
  | 32 => 0x811c9dc5
  | 64 => 0xcbf29ce484222325
  | 128 => Pack128 0x6c62272e07bb0142 0x62b821756295c58d
  | _ => 0

/-- The loop body of `fnv1a<Bits>::hash_container`, recursing on the remaining
fuel `l - j`.  `s` is the indexable container (`operator[]`, each read cast to
`uint8_t`, hence `% 256`), `stop` the stop-byte template parameter (`stop = 0`
means the stop check is compiled out by `if constexpr (stop != 0)`), `slot`
whether a non-null `stopLen` output pointer was supplied, `j` the current
index and `h` the accumulator (a value of the width's unsigned type).
The second component of the result is the value written through `stopLen`
(`none` when nothing is written, so the slot keeps its prior contents). -/
def hash_container_loop (bits : Nat) (s : Nat → Nat) (stop : Nat) (slot : Bool) :
    Nat → Nat → Nat → Nat × Option Nat
  | _, h, 0 => (h, none)
  | j, h, fuel + 1 =>
    if stop ≠ 0 ∧ s j % 256 = stop then
      (h, if slot then some (j + 1) else none)
    else
      hash_container_loop bits s stop slot (j + 1)
        (((h ^^^ (s j % 256)) * fnv1aPrime bits) % 2 ^ bits) fuel

/-- `fnv1a<Bits>::hash_container(s, l, stopLen, hash)`.  In the source the
defaults are `stop = 0` (no stop byte), `stopLen = nullptr` (`slot = false`)
and `hash = fnv1a_traits<Bits>::Offset`; here all arguments are explicit.
The seed is a value of the width's unsigned type, hence reduced `% 2 ^ bits`. -/
def hash_container (bits : Nat) (s : Nat → Nat) (l : Nat) (stop : Nat)
    (slot : Bool) (h : Nat) : Nat × Option Nat :=
  hash_container_loop bits s stop slot 0 (h % 2 ^ bits) l

/-- List-level reference fold: folding a byte list through one FNV-1a step
`acc := ((acc XOR byte) * prime) mod 2 ^ bits` per byte, with the `uint8_t`
cast (`% 256`) on each read, as the engine's loop does. -/
def foldBytes (bits : Nat) (h : Nat) : List Nat → Nat
  | [] => h
  | b :: rest => foldBytes bits (((h ^^^ (b % 256)) * fnv1aPrime bits) % 2 ^ bits) rest

/-- A byte list viewed through `operator[]` (out-of-range reads return 0;
the source never performs them when the caller's length is accurate). -/
def listContainer (bs : List Nat) : Nat → Nat :=
  fun j => bs.getD j 0

/-- `fnv1a<Bits>::hash(const C* s, l)` with default stop, stopLen and seed:
delegates to `hash_container` on the pointed-to buffer. -/
def fnv1a_hash_ptr (bits : Nat) (buf : List Nat) (l : Nat) : Nat :=
  (hash_container bits (listContainer buf) l 0 false (fnv1aOffset bits)).1

/-- `fnv1a<Bits>::hash(const char (&s)[l])`: statically-sized character array,
hashes `l - 1` characters (excluding the presumed trailing terminator). -/
def fnv1a_hash_array (bits : Nat) (buf : List Nat) : Nat :=
  fnv1a_hash_ptr bits buf (buf.length - 1)

/-- `__builtin_strlen`: byte-scan for the null terminator. -/
def cstrlen (buf : List Nat) : Nat :=
  (buf.takeWhile (fun b => b % 256 != 0)).length

/-- `fnv1a<Bits>::hash(const char* s)`: null-terminated string, length found
by byte-scan, then delegates to the pointer overload. -/
def fnv1a_hash_cstr (bits : Nat) (buf : List Nat) : Nat :=
  fnv1a_hash_ptr bits buf (cstrlen buf)

/-- `fnv1a<Bits>::hash(const std::string&)`: hashes `str.c_str()` with
explicit length `str.size()` (embedded null bytes included). -/
def fnv1a_hash_string (bits : Nat) (str : List Nat) : Nat :=
  fnv1a_hash_ptr bits str str.length

/-- `fnv1a<Bits>::hash(const std::basic_string_view<C>&)`: hashes
`str.data()` with explicit length `str.size()`. -/
def fnv1a_hash_string_view (bits : Nat) (str : List Nat) : Nat :=
  fnv1a_hash_ptr bits str str.length

/-- `operator"" _fnv1a32/64/128(s, l)`: literal operator, calls
`fnv1a<Bits>::hash(s, l)` on the literal's characters. -/
def lit_fnv1a (bits : Nat) (bs : List Nat) : Nat :=
  fnv1a_hash_ptr bits bs bs.length

/-- The byte remap of `strhash_lower::_lowercase_container::operator[]`:
`c >= 'A' && c <= 'Z' ? (c + 'a' - 'A') : c`. -/
def lowercase (c : Nat) : Nat :=
  if 65 ≤ c ∧ c ≤ 90 then c + 97 - 65 else c

/-- `strhash_lower::hash(container, size)`: wraps the container in the
lowering adapter and calls `strhash::hash_container` (strhash = fnv1a128)
with default stop, stopLen and seed. -/
def strhash_lower_hash (s : Nat → Nat) (l : Nat) : Nat :=
  (hash_container 128 (fun j => lowercase (s j)) l 0 false (fnv1aOffset 128)).1

/-- `strhash_lower` applied to a byte list through `operator[]`. -/
def strhash_lower_hashBytes (bs : List Nat) : Nat :=
  strhash_lower_hash (listContainer bs) bs.length

/-- C++ unsigned integer division: division by zero is undefined behavior
(typically a hardware fault), modelled as `none`. -/
def cppDiv (a b : Nat) : Option Nat :=
  if b = 0 then none else some (a / b)

/-- The ratio computation of `bench()` in `main.cpp`, line 151:
`const auto factor = (elapsed_if * 100) / elapsed_case;` over `uint64_t`,
with no guard on the divisor. -/
def bench_factor (elapsed_if elapsed_case : Nat) : Option Nat :=
  cppDiv ((elapsed_if * 100) % 2 ^ 64) elapsed_case

/-- The canonical FNV-1a primes exactly as the specification lists them
(second definition, for the refinement claim against the source traits). -/
def specPrime : Nat → Nat
  | 32 => 0x01000193
  | 64 => 0x100000001b3
  | 128 => 0x1000000000000000000013b
  | _ => 0

/-- The canonical FNV-1a offset bases exactly as the specification lists them. -/
def specOffset : Nat → Nat
  | 32 => 0x811c9dc5
  | 64 => 0xcbf29ce484222325
  | 128 => 0x6c62272e07bb014262b821756295c58d
  | _ => 0

/-- The FNV-1a fold as the specification words it: the accumulator starts at
the seed and each byte b updates it to `((acc XOR b) * prime) mod 2 ^ w`. -/
def specFold (w seed : Nat) (bs : List Nat) : Nat :=
  bs.foldl (fun acc b => ((acc ^^^ b) * specPrime w) % 2 ^ w) seed

lemma hash_container_loop_ext (bits stop : Nat) (slot : Bool) :
    ∀ (fuel j h : Nat) (s t : Nat → Nat), (∀ i, i < fuel → s (j + i) = t (j + i)) →
    hash_container_loop bits s stop slot j h fuel
      = hash_container_loop bits t stop slot j h fuel := by
  intro fuel
  induction fuel with
  | zero => intro j h s t _; rfl
  | succ n ih =>
    intro j h s t hst
    have h0 : s j = t j := by simpa using hst 0 (Nat.succ_pos n)
    simp only [hash_container_loop, h0]
    split
    · rfl
    · exact ih (j + 1) _ s t (fun i hi => by
        have hx := hst (i + 1) (Nat.succ_lt_succ hi)
        have harith : j + (i + 1) = j + 1 + i := by omega
        rwa [harith] at hx)

lemma hash_container_loop_fold (bits stop : Nat) (slot : Bool) :
    ∀ (bs : List Nat) (j h : Nat) (s : Nat → Nat),
    (∀ i, i < bs.length → s (j + i) = bs.getD i 0) →
    (∀ i, i < bs.length → stop = 0 ∨ bs.getD i 0 % 256 ≠ stop) →
    hash_container_loop bits s stop slot j h bs.length = (foldBytes bits h bs, none) := by
  intro bs
  induction bs with
  | nil => intro j h s _ _; rfl
  | cons b rest ih =>
    intro j h s hs htrig
    have h0 : s j = b := by simpa using hs 0 (Nat.succ_pos _)
    have hcond : ¬ (stop ≠ 0 ∧ s j % 256 = stop) := by
      rcases htrig 0 (Nat.succ_pos _) with h1 | h1
      · intro hcc; exact hcc.1 h1
      · intro hcc; exact h1 (by simpa [h0] using hcc.2)
    simp only [List.length_cons, hash_container_loop, if_neg hcond]
    rw [show foldBytes bits h (b :: rest)
        = foldBytes bits (((h ^^^ (b % 256)) * fnv1aPrime bits) % 2 ^ bits) rest from rfl]
    rw [h0]
    exact ih (j + 1) _ s
      (fun i hi => by
        have hx := hs (i + 1) (Nat.succ_lt_succ hi)
        have harith : j + (i + 1) = j + 1 + i := by omega
        rw [harith] at hx
        simpa using hx)
      (fun i hi => by
        have := htrig (i + 1) (Nat.succ_lt_succ hi)
        simpa using this)

lemma hash_container_loop_stop (bits stop : Nat) (slot : Bool) (c : Nat) (rest : List Nat)
    (hstop : stop ≠ 0) (hc : c % 256 = stop) :
    ∀ (pre : List Nat) (j h : Nat) (s : Nat → Nat),
    (∀ i, i < (pre ++ c :: rest).length → s (j + i) = (pre ++ c :: rest).getD i 0) →
    (∀ i, i < pre.length → pre.getD i 0 % 256 ≠ stop) →
    hash_container_loop bits s stop slot j h (pre ++ c :: rest).length
      = (foldBytes bits h pre, if slot then some (j + pre.length + 1) else none) := by
  intro pre
  induction pre with
  | nil =>
    intro j h s hs _
    have h0 : s j = c := by simpa using hs 0 (by simp)
    simp only [List.nil_append, List.length_cons, hash_container_loop]
    rw [if_pos ⟨hstop, by rw [h0, hc]⟩]
    simp [foldBytes]
  | cons p ps ih =>
    intro j h s hs hpre
    have h0 : s j = p := by simpa using hs 0 (by simp)
    have hcond : ¬ (stop ≠ 0 ∧ s j % 256 = stop) := by
      intro hcc
      exact hpre 0 (by simp) (by simpa [h0] using hcc.2)
    have hlen : ((p :: ps) ++ c :: rest).length = (ps ++ c :: rest).length + 1 := by simp
    rw [hlen]
    simp only [hash_container_loop, if_neg hcond]
    rw [h0]
    have hrec := ih (j + 1) (((h ^^^ (p % 256)) * fnv1aPrime bits) % 2 ^ bits) s
      (fun i hi => by
        have hx := hs (i + 1) (by simpa using Nat.succ_lt_succ hi)
        have harith : j + (i + 1) = j + 1 + i := by omega
        rw [harith] at hx
        simpa using hx)
      (fun i hi => by
        have := hpre (i + 1) (Nat.succ_lt_succ hi)
        simpa using this)
    rw [hrec]
    rw [show foldBytes bits h (p :: ps)
        = foldBytes bits (((h ^^^ (p % 256)) * fnv1aPrime bits) % 2 ^ bits) ps from rfl]
    have harith2 : j + 1 + ps.length + 1 = j + (p :: ps).length + 1 := by simp; omega
    rw [harith2]

lemma foldBytes_append (bits : Nat) (xs : List Nat) :
    ∀ (h : Nat) (ys : List Nat),
    foldBytes bits h (xs ++ ys) = foldBytes bits (foldBytes bits h xs) ys := by
  induction xs with
  | nil => intro h ys; rfl
  | cons x xs ih => intro h ys; exact ih _ ys

lemma foldBytes_lt (bits : Nat) (bs : List Nat) :
    ∀ h : Nat, h < 2 ^ bits → foldBytes bits h bs < 2 ^ bits := by
  induction bs with
  | nil => intro h hh; exact hh
  | cons b rest ih =>
    intro h _
    exact ih _ (Nat.mod_lt _ (Nat.pos_pow_of_pos bits (by omega)))

lemma foldBytes_eq_specFold (w : Nat) (hP : fnv1aPrime w = specPrime w) :
    ∀ (bs : List Nat) (h : Nat), (∀ b ∈ bs, b < 256) → foldBytes w h bs = specFold w h bs := by
  intro bs
  induction bs with
  | nil => intro h _; rfl
  | cons b rest ih =>
    intro h hb
    have hblt : b < 256 := hb b (List.mem_cons_self b rest)
    show foldBytes w (((h ^^^ (b % 256)) * fnv1aPrime w) % 2 ^ w) rest
      = specFold w (((h ^^^ b) * specPrime w) % 2 ^ w) rest
    rw [Nat.mod_eq_of_lt hblt, hP]
    exact ih _ (fun x hx => hb x (List.mem_cons_of_mem b hx))

lemma getD_take : ∀ (bs : List Nat) (l i : Nat), i < l → (bs.take l).getD i 0 = bs.getD i 0 := by
  intro bs
  induction bs with
  | nil => intro l i _; simp
  | cons b rest ih =>
    intro l i hi
    cases l with
    | zero => omega
    | succ n =>
      cases i with
      | zero => simp
      | succ k => simpa using ih n k (by omega)

lemma hash_container_list (bits : Nat) (slot : Bool) (bs : List Nat) (seed : Nat) :
    hash_container bits (listContainer bs) bs.length 0 slot seed
      = (foldBytes bits (seed % 2 ^ bits) bs, none) := by
  unfold hash_container
  exact hash_container_loop_fold bits 0 slot bs 0 _ _
    (fun i _ => by simp [listContainer]) (fun i _ => Or.inl rfl)

lemma lit_fnv1a_eq_fold (bits : Nat) (bs : List Nat) :
    lit_fnv1a bits bs = foldBytes bits (fnv1aOffset bits % 2 ^ bits) bs := by
  unfold lit_fnv1a fnv1a_hash_ptr
  rw [hash_container_list]

lemma hash_ptr_take (bits : Nat) (buf : List Nat) (l : Nat) (hl : l ≤ buf.length) :
    fnv1a_hash_ptr bits buf l = lit_fnv1a bits (buf.take l) := by
  unfold fnv1a_hash_ptr
  unfold hash_container
  have hlen : (buf.take l).length = l := by simp [Nat.min_eq_left hl]
  rw [lit_fnv1a_eq_fold]
  have := hash_container_loop_fold bits 0 false (buf.take l) 0
    (fnv1aOffset bits % 2 ^ bits) (listContainer buf)
    (fun i hi => by
      have hi2 : i < l := by omega
      simp only [listContainer, Nat.zero_add]
      exact (getD_take buf l i hi2).symm)
    (fun i _ => Or.inl rfl)
  rw [hlen] at this
  rw [this]

lemma getD_map (f : Nat → Nat) : ∀ (bs : List Nat) (i : Nat), i < bs.length →
    (bs.map f).getD i 0 = f (bs.getD i 0) := by
  intro bs
  induction bs with
  | nil => intro i hi; simp at hi
  | cons b rest ih =>
    intro i hi
    cases i with
    | zero => simp
    | succ k => simpa using ih k (by simpa using hi)

lemma takeWhile_len_le (p : Nat → Bool) : ∀ bs : List Nat, (bs.takeWhile p).length ≤ bs.length := by
  intro bs
  induction bs with
  | nil => simp
  | cons b rest ih =>
    by_cases hb : p b
    · simpa [List.takeWhile_cons, hb] using Nat.succ_le_succ ih
    · simp [List.takeWhile_cons, hb]

lemma take_takeWhile (p : Nat → Bool) : ∀ bs : List Nat, bs.take (bs.takeWhile p).length = bs.takeWhile p := by
  intro bs
  induction bs with
  | nil => simp
  | cons b rest ih =>
    by_cases hb : p b
    · simp [List.takeWhile_cons, hb, ih]
    · simp [List.takeWhile_cons, hb]

lemma strhash_lower_eq_map (bs : List Nat) :
    strhash_lower_hashBytes bs = lit_fnv1a 128 (bs.map lowercase) := by
  unfold strhash_lower_hashBytes strhash_lower_hash
  rw [lit_fnv1a_eq_fold]
  unfold hash_container
  have hfold := hash_container_loop_fold 128 0 false (bs.map lowercase) 0
    (fnv1aOffset 128 % 2 ^ 128) (fun j => lowercase (listContainer bs j))
    (fun i hi => by
      have hi2 : i < bs.length := by simpa using hi
      simp only [listContainer, Nat.zero_add]
      exact (getD_map lowercase bs i hi2).symm)
    (fun i _ => Or.inl rfl)
  rw [List.length_map] at hfold
  rw [hfold]

lemma map_lowercase_id (bs : List Nat) (hb : ∀ b ∈ bs, ¬ (65 ≤ b ∧ b ≤ 90)) :
    bs.map lowercase = bs := by
  induction bs with
  | nil => rfl
  | cons b rest ih =>
    have h1 : lowercase b = b := by
      unfold lowercase
      rw [if_neg (hb b (List.mem_cons_self b rest))]
    simp only [List.map_cons, h1]
    rw [ih (fun x hx => hb x (List.mem_cons_of_mem b hx))]

/-- Claim C1: for every byte sequence, every supported width and every seed
(default = the width's offset basis), the hash engine computes the FNV-1a
fold — one `((acc XOR b) * prime) mod 2 ^ w` step per byte with wraparound —
using exactly the canonical primes and offset bases the spec lists. -/
theorem C1_fnv1a_fold (w : Nat) (hw : w = 32 ∨ w = 64 ∨ w = 128)
    (bs : List Nat) (hb : ∀ b ∈ bs, b < 256) (seed : Nat) (hseed : seed < 2 ^ w) :
    (hash_container w (listContainer bs) bs.length 0 false seed).1 = specFold w seed bs
      ∧ fnv1aPrime w = specPrime w ∧ fnv1aOffset w = specOffset w := by
  have hP : fnv1aPrime w = specPrime w := by
    rcases hw with h | h | h <;> subst h <;> decide
  have hO : fnv1aOffset w = specOffset w := by
    rcases hw with h | h | h <;> subst h <;> decide
  refine ⟨?_, hP, hO⟩
  rw [hash_container_list]
  show foldBytes w (seed % 2 ^ w) bs = specFold w seed bs
  rw [Nat.mod_eq_of_lt hseed]
  exact foldBytes_eq_specFold w hP bs seed hb

/-- Witness for C1 at width 32, bytes "hi", seed = the 32-bit offset basis. -/
theorem C1_fnv1a_fold_witness :
    ((32 : Nat) = 32 ∨ (32 : Nat) = 64 ∨ (32 : Nat) = 128)
      ∧ (∀ b ∈ ([104, 105] : List Nat), b < 256) ∧ (0x811c9dc5 : Nat) < 2 ^ 32
      ∧ ((hash_container 32 (listContainer [104, 105]) (List.length [104, 105]) 0 false 0x811c9dc5).1
            = specFold 32 0x811c9dc5 [104, 105]
          ∧ fnv1aPrime 32 = specPrime 32 ∧ fnv1aOffset 32 = specOffset 32) :=
  ⟨Or.inl rfl, by decide, by decide,
    C1_fnv1a_fold 32 (Or.inl rfl) [104, 105] (by decide) 0x811c9dc5 (by decide)⟩

/-- Claim C2: the 5-byte input "hello" hashes to the published FNV-1a test
vectors at all three widths. -/
theorem C2_hello_test_vectors :
    lit_fnv1a 32 [0x68, 0x65, 0x6c, 0x6c, 0x6f] = 0x4f9f2cab
      ∧ lit_fnv1a 64 [0x68, 0x65, 0x6c, 0x6c, 0x6f] = 0xa430d84680aabd0b
      ∧ lit_fnv1a 128 [0x68, 0x65, 0x6c, 0x6c, 0x6f] = 0xe3e1efd54283d94f7081314b599d31b3 :=
  ⟨by decide, by decide, by decide⟩

/-- Claim C3: at every supported width, hashing an input of length 0 returns
the seed unchanged, and with the default seed returns the offset basis;
the stop-position slot is never written. -/
theorem C3_empty_input (bits : Nat) (hbits : bits = 32 ∨ bits = 64 ∨ bits = 128)
    (s : Nat → Nat) (stop : Nat) (slot : Bool) (seed : Nat) (hseed : seed < 2 ^ bits) :
    hash_container bits s 0 stop slot seed = (seed, none)
      ∧ hash_container bits s 0 stop slot (fnv1aOffset bits) = (fnv1aOffset bits, none) := by
  constructor
  · unfold hash_container
    rw [Nat.mod_eq_of_lt hseed]
    rfl
  · unfold hash_container
    have hoff : fnv1aOffset bits % 2 ^ bits = fnv1aOffset bits := by
      rcases hbits with h | h | h <;> subst h <;> decide
    rw [hoff]
    rfl

/-- Witness for C3 at width 64, an arbitrary container, stop byte 7, seed 42. -/
theorem C3_empty_input_witness :
    ((64 : Nat) = 32 ∨ (64 : Nat) = 64 ∨ (64 : Nat) = 128) ∧ (42 : Nat) < 2 ^ 64
      ∧ (hash_container 64 (fun j => j) 0 7 true 42 = (42, none)
          ∧ hash_container 64 (fun j => j) 0 7 true (fnv1aOffset 64) = (fnv1aOffset 64, none)) :=
  ⟨Or.inr (Or.inl rfl), by decide,
    C3_empty_input 64 (Or.inr (Or.inl rfl)) (fun j => j) 7 true 42 (by decide)⟩

/-- Claim C7: the hash engine is a pure function of the width, the parameters
and the bytes actually read: two computations over containers holding the same
bytes in range yield identical results — no hidden state, no call-order
dependency. -/
theorem C7_purity (bits l stop : Nat) (slot : Bool) (seed : Nat) (s t : Nat → Nat)
    (hagree : ∀ j, j < l → s j = t j) :
    hash_container bits s l stop slot seed = hash_container bits t l stop slot seed := by
  unfold hash_container
  exact hash_container_loop_ext bits stop slot l 0 _ s t
    (fun i hi => by simpa using hagree i hi)

/-- Witness for C7 at width 32: two containers agreeing on indices below 2. -/
theorem C7_purity_witness :
    (∀ j, j < 2 → listContainer [10, 20] j = listContainer [10, 20, 99] j)
      ∧ hash_container 32 (listContainer [10, 20]) 2 0 false 1
          = hash_container 32 (listContainer [10, 20, 99]) 2 0 false 1 :=
  ⟨by decide, C7_purity 32 2 0 false 1 (listContainer [10, 20]) (listContainer [10, 20, 99])
    (by decide)⟩

/-- Claim C9: when the configured nonzero stop byte does not occur among the
first l bytes, all l bytes are folded (the result equals the stop-free hash)
and the stop-position slot is never written (`none`: prior contents kept). -/
theorem C9_stop_absent (bits stop : Nat) (hstop : stop ≠ 0) (bs : List Nat)
    (habsent : ∀ i, i < bs.length → bs.getD i 0 % 256 ≠ stop) (slot : Bool) (seed : Nat) :
    hash_container bits (listContainer bs) bs.length stop slot seed
      = ((hash_container bits (listContainer bs) bs.length 0 false seed).1, none) := by
  have hrhs : (hash_container bits (listContainer bs) bs.length 0 false seed).1
      = foldBytes bits (seed % 2 ^ bits) bs := by rw [hash_container_list]
  rw [hrhs]
  unfold hash_container
  exact hash_container_loop_fold bits stop slot bs 0 _ _
    (fun i _ => by simp [listContainer]) (fun i hi => Or.inr (habsent i hi))

/-- Witness for C9 at width 32: stop byte 124 absent from [97, 98]. -/
theorem C9_stop_absent_witness :
    (124 : Nat) ≠ 0 ∧ (∀ i, i < List.length [97, 98] → List.getD [97, 98] i 0 % 256 ≠ 124)
      ∧ hash_container 32 (listContainer [97, 98]) (List.length [97, 98]) 124 true 3
          = ((hash_container 32 (listContainer [97, 98]) (List.length [97, 98]) 0 false 3).1, none) :=
  ⟨by decide, by decide, C9_stop_absent 32 124 (by decide) [97, 98] (by decide) true 3⟩

/-- Claim C10: hashing is compositional over concatenation through the seed:
with no stop byte, hashing s1 ++ s2 equals hashing s2 with the accumulator
seeded by the hash of s1, at every width and every seed. -/
theorem C10_seed_composition (bits : Nat) (bs1 bs2 : List Nat) (seed : Nat) :
    (hash_container bits (listContainer (bs1 ++ bs2)) (bs1.length + bs2.length) 0 false seed).1
      = (hash_container bits (listContainer bs2) bs2.length 0 false
          ((hash_container bits (listContainer bs1) bs1.length 0 false seed).1)).1 := by
  have h1 : (hash_container bits (listContainer bs1) bs1.length 0 false seed).1
      = foldBytes bits (seed % 2 ^ bits) bs1 := by rw [hash_container_list]
  have hlen : bs1.length + bs2.length = (bs1 ++ bs2).length := by simp
  rw [hlen, h1, hash_container_list, hash_container_list]
  show foldBytes bits (seed % 2 ^ bits) (bs1 ++ bs2)
    = foldBytes bits (foldBytes bits (seed % 2 ^ bits) bs1 % 2 ^ bits) bs2
  rw [foldBytes_append]
  have hlt : foldBytes bits (seed % 2 ^ bits) bs1 < 2 ^ bits :=
    foldBytes_lt bits bs1 _ (Nat.mod_lt _ (Nat.pos_pow_of_pos bits (by omega)))
  rw [Nat.mod_eq_of_lt hlt]

/-- Claim C4 as stated is false on the code at its own concrete input: the stop
check is compiled only when the stop template value is nonzero
(`if constexpr (stop != 0)`), so hashing "abc\0def" (bytes 97 98 99 0 100 101
102) with stop value 0 and length 7 folds all 7 bytes: the hash differs from
`hash("abc", 3)` and the stop position is never written (so it is not 4). -/
theorem C4_counterexample :
    ¬ ((hash_container 128 (listContainer [97, 98, 99, 0, 100, 101, 102]) 7 0 true
          (fnv1aOffset 128)).1 = lit_fnv1a 128 [97, 98, 99]
        ∧ (hash_container 128 (listContainer [97, 98, 99, 0, 100, 101, 102]) 7 0 true
            (fnv1aOffset 128)).2 = some 4) := by
  decide

/-- Claim C4 (amended): when a configured NONZERO stop byte first occurs at
position j, hashing terminates there without folding that byte, the result is
the hash of the first j bytes, and j + 1 is written to the slot when one was
supplied; concretely, hashing "abc|def" with stop byte 0x7c and length 7
equals hashing "abc" with no stop byte and length 3, with reported stop
position 4.  (Stop byte 0 cannot be configured: stop value 0 means no stop
byte, so hashing "abc\0def" with stop value 0 folds all 7 bytes.) -/
theorem C4_stop_byte_amended (bits stop : Nat) (hstop : stop ≠ 0) (c : Nat)
    (hc : c % 256 = stop) (pre rest : List Nat)
    (hpre : ∀ i, i < pre.length → pre.getD i 0 % 256 ≠ stop) (slot : Bool) (seed : Nat) :
    (hash_container bits (listContainer (pre ++ c :: rest)) (pre ++ c :: rest).length
          stop slot seed
        = ((hash_container bits (listContainer pre) pre.length 0 false seed).1,
            if slot then some (pre.length + 1) else none))
      ∧ hash_container 128 (listContainer [97, 98, 99, 124, 100, 101, 102]) 7 124 true
          (fnv1aOffset 128)
        = (lit_fnv1a 128 [97, 98, 99], some 4) := by
  constructor
  · have hrhs : (hash_container bits (listContainer pre) pre.length 0 false seed).1
        = foldBytes bits (seed % 2 ^ bits) pre := by rw [hash_container_list]
    rw [hrhs]
    unfold hash_container
    have hloop := hash_container_loop_stop bits stop slot c rest hstop hc pre 0
      (seed % 2 ^ bits) (listContainer (pre ++ c :: rest))
      (fun i _ => by simp [listContainer]) hpre
    rw [hloop]
    rw [Nat.zero_add]
  · decide

/-- Witness for the amended C4 at width 32: stop byte 124 hit at position 1
of [97, 124, 98], slot supplied, seed 5. -/
theorem C4_stop_byte_amended_witness :
    (124 : Nat) ≠ 0 ∧ (124 : Nat) % 256 = 124
      ∧ (∀ i, i < List.length [97] → List.getD [97] i 0 % 256 ≠ 124)
      ∧ hash_container 32 (listContainer ([97] ++ 124 :: [98]))
          (List.length ([97] ++ 124 :: [98])) 124 true 5
        = ((hash_container 32 (listContainer [97]) (List.length [97]) 0 false 5).1,
            if true then some (List.length [97] + 1) else none) :=
  ⟨by decide, by decide, by decide,
    (C4_stop_byte_amended 32 124 (by decide) 124 (by decide) [97] [98] (by decide) true 5).1⟩

/-- Claim C5: the case-insensitive hash is invariant under ASCII case (inputs
with equal lowered images hash equally; in particular "Hello", "HELLO" and
"hello" agree), and bytes outside A..Z pass through the lowering adapter
unchanged, so inputs without uppercase letters hash exactly as the plain
128-bit engine folds them. -/
theorem C5_case_insensitive :
    (∀ bs bs2 : List Nat, bs.map lowercase = bs2.map lowercase →
        strhash_lower_hashBytes bs = strhash_lower_hashBytes bs2)
      ∧ (∀ c : Nat, ¬ (65 ≤ c ∧ c ≤ 90) → lowercase c = c)
      ∧ (∀ bs : List Nat, (∀ b ∈ bs, ¬ (65 ≤ b ∧ b ≤ 90)) →
          strhash_lower_hashBytes bs = lit_fnv1a 128 bs)
      ∧ strhash_lower_hashBytes [72, 101, 108, 108, 111]
          = strhash_lower_hashBytes [104, 101, 108, 108, 111]
      ∧ strhash_lower_hashBytes [72, 69, 76, 76, 79]
          = strhash_lower_hashBytes [104, 101, 108, 108, 111] := by
  refine ⟨?_, ?_, ?_, by decide, by decide⟩
  · intro bs bs2 hmap
    rw [strhash_lower_eq_map, strhash_lower_eq_map, hmap]
  · intro c hc
    unfold lowercase
    rw [if_neg hc]
  · intro bs hb
    rw [strhash_lower_eq_map, map_lowercase_id bs hb]

/-- Witness for C5: "He1!o" and "hE1!o" lower to the same bytes, and "he1!o"
(no uppercase) hashes as the plain engine. -/
theorem C5_case_insensitive_witness :
    (List.map lowercase [72, 101, 49, 33, 111] = List.map lowercase [104, 69, 49, 33, 111])
      ∧ strhash_lower_hashBytes [72, 101, 49, 33, 111]
          = strhash_lower_hashBytes [104, 69, 49, 33, 111]
      ∧ ((∀ b ∈ ([104, 101, 49, 33, 111] : List Nat), ¬ (65 ≤ b ∧ b ≤ 90))
          ∧ strhash_lower_hashBytes [104, 101, 49, 33, 111]
              = lit_fnv1a 128 [104, 101, 49, 33, 111]) :=
  ⟨by decide, C5_case_insensitive.1 [72, 101, 49, 33, 111] [104, 69, 49, 33, 111] (by decide),
    by decide, C5_case_insensitive.2.2.1 [104, 101, 49, 33, 111] (by decide)⟩

/-- Claim C6: every entry wrapper — pointer + length, statically-sized array
(dropping the presumed trailing terminator), null-terminated string (length by
byte-scan), std::string, string_view — hashes identically to the core engine
folded over the same effective byte sequence. -/
theorem C6_wrappers (bits : Nat) (buf : List Nat) (l : Nat) (hl : l ≤ buf.length)
    (hne : buf ≠ []) :
    fnv1a_hash_ptr bits buf l = lit_fnv1a bits (buf.take l)
      ∧ fnv1a_hash_array bits buf = lit_fnv1a bits (buf.take (buf.length - 1))
      ∧ fnv1a_hash_cstr bits buf = lit_fnv1a bits (buf.takeWhile (fun b => b % 256 != 0))
      ∧ fnv1a_hash_string bits buf = lit_fnv1a bits buf
      ∧ fnv1a_hash_string_view bits buf = lit_fnv1a bits buf := by
  refine ⟨hash_ptr_take bits buf l hl, ?_, ?_, ?_, ?_⟩
  · exact hash_ptr_take bits buf (buf.length - 1) (Nat.sub_le _ _)
  · unfold fnv1a_hash_cstr cstrlen
    rw [hash_ptr_take bits buf _ (takeWhile_len_le _ buf)]
    rw [take_takeWhile]
  · unfold fnv1a_hash_string
    rw [hash_ptr_take bits buf buf.length (Nat.le_refl _), List.take_length]
  · unfold fnv1a_hash_string_view
    rw [hash_ptr_take bits buf buf.length (Nat.le_refl _), List.take_length]

/-- Witness for C6 at width 32 on the buffer "a\0b" with explicit length 2. -/
theorem C6_wrappers_witness :
    (2 : Nat) ≤ List.length [97, 0, 98] ∧ ([97, 0, 98] : List Nat) ≠ []
      ∧ (fnv1a_hash_ptr 32 [97, 0, 98] 2 = lit_fnv1a 32 (List.take 2 [97, 0, 98])
          ∧ fnv1a_hash_array 32 [97, 0, 98]
              = lit_fnv1a 32 (List.take (List.length [97, 0, 98] - 1) [97, 0, 98])
          ∧ fnv1a_hash_cstr 32 [97, 0, 98]
              = lit_fnv1a 32 (List.takeWhile (fun b => b % 256 != 0) [97, 0, 98])
          ∧ fnv1a_hash_string 32 [97, 0, 98] = lit_fnv1a 32 [97, 0, 98]
          ∧ fnv1a_hash_string_view 32 [97, 0, 98] = lit_fnv1a 32 [97, 0, 98]) :=
  ⟨by decide, by decide, C6_wrappers 32 [97, 0, 98] 2 (by decide) (by decide)⟩

/-- Claim C8 is right about the requirement and wrong about the code: `bench()`
computes `(elapsed_if * 100) / elapsed_case` with no guard (`main.cpp` line
151), so a zero elapsed hash-phase time reaches an integer division by zero —
undefined behavior, modelled here as `none` (the division faults), not a
guarded unavailable value produced instead of dividing. -/
theorem C8_factor_unguarded (elapsed_if : Nat) :
    bench_factor elapsed_if 0 = cppDiv ((elapsed_if * 100) % 2 ^ 64) 0
      ∧ cppDiv ((elapsed_if * 100) % 2 ^ 64) 0 = none :=
  ⟨rfl, rfl⟩

